import Mathlib

/-! Verification of `findMedianSortedArrays` (src/findMedianSortedArrays.py).

The Python program is shallowly embedded as follows.  Python floats are
modelled exactly by `PyFloat`: a rational number, the infinities produced by
`float('-inf')` / `float('inf')`, and the `nan` produced by `inf + (-inf)`.
Python list indexing is `pyGet` (negative indices wrap around, anything else
out of range raises `IndexError`).  The `while` loop of the source is the
recursive function `searchLoop`; the three ways the Python function can come
back to its caller are collected in `PyRet`: an `IndexError` escapes, the
loop falls through and the function implicitly returns `None`, or a value is
returned.  Integer arithmetic uses `ℤ`, where `/` is `Int.ediv`, which
agrees with Python's floor division `//` for the positive divisor 2, and
`%` is `Int.emod`, which agrees with Python's `%` for modulus 2. -/

inductive PyFloat : Type where
  | nan : PyFloat
  | ninf : PyFloat
  | pinf : PyFloat
  | num : ℚ → PyFloat
deriving DecidableEq

/-- Python's `<` on floats: any comparison with `nan` is `False`. -/
def PyFloat.lt : PyFloat → PyFloat → Bool
  | .nan, _ => false
  | _, .nan => false
  | .ninf, .ninf => false
  | .ninf, _ => true
  | _, .ninf => false
  | .pinf, _ => false
  | .num _, .pinf => true
  | .num a, .num b => decide (a < b)

/-- Python's `<=` on floats: any comparison with `nan` is `False`. -/
def PyFloat.le : PyFloat → PyFloat → Bool
  | .nan, _ => false
  | _, .nan => false
  | .ninf, _ => true
  | _, .ninf => false
  | _, .pinf => true
  | .pinf, _ => false
  | .num a, .num b => decide (a ≤ b)

/-- Python's `>` on floats (`a > b` holds exactly when `b < a`). -/
def PyFloat.gt (a b : PyFloat) : Bool := PyFloat.lt b a

/-- Python's binary `max(a, b)`: returns `b` when `b > a`, else `a`. -/
def pmax (a b : PyFloat) : PyFloat := if PyFloat.lt a b then b else a

/-- Python's binary `min(a, b)`: returns `b` when `b < a`, else `a`. -/
def pmin (a b : PyFloat) : PyFloat := if PyFloat.lt b a then b else a

/-- Python float addition; in particular `(-inf) + inf = nan`. -/
def pyAdd : PyFloat → PyFloat → PyFloat
  | .nan, _ => .nan
  | _, .nan => .nan
  | .ninf, .pinf => .nan
  | .pinf, .ninf => .nan
  | .ninf, _ => .ninf
  | _, .ninf => .ninf
  | .pinf, _ => .pinf
  | _, .pinf => .pinf
  | .num a, .num b => .num (a + b)

/-- Python float division by 2 (true division `x / 2`). -/
def pyHalf : PyFloat → PyFloat
  | .nan => .nan
  | .ninf => .ninf
  | .pinf => .pinf
  | .num a => .num (a / 2)

/-- Python list indexing `l[i]`: a negative index wraps around once;
an index that is still out of range raises `IndexError` (here: `none`). -/
def pyGet (l : List ℚ) (i : ℤ) : Option ℚ :=
  let j : ℤ := if i < 0 then i + l.length else i
  if 0 ≤ j then l[j.toNat]? else none

/-- Line 7 of the source: `partition1 = (left + right) // 2`. -/
def partition1Of (left right : ℤ) : ℤ := (left + right) / 2

/-- Line 8 of the source: `partition2 = (m + n + 1) // 2 - partition1`. -/
def partition2Of (m n partition1 : ℤ) : ℤ := (m + n + 1) / 2 - partition1

/-- The observable outcomes of the Python function: an `IndexError`
propagating out, the implicit `None` when the `while` loop falls through,
or an explicitly returned float. -/
inductive PyRet : Type where
  | idxErr : PyRet
  | noneRet : PyRet
  | value : PyFloat → PyRet
deriving DecidableEq

/-- The `while left <= right` loop of the source (lines 6-21), for the
already-swapped arguments: `nums1` is the searched (shorter) sequence. -/
def searchLoop (nums1 nums2 : List ℚ) (left right : ℤ) : PyRet :=
  if _h : left ≤ right then
    let partition1 : ℤ := partition1Of left right
    let partition2 : ℤ := partition2Of nums1.length nums2.length partition1
    let omax1 : Option PyFloat :=
      if partition1 = 0 then some PyFloat.ninf
      else PyFloat.num <$> pyGet nums1 (partition1 - 1)
    let omin1 : Option PyFloat :=
      if partition1 = (nums1.length : ℤ) then some PyFloat.pinf
      else PyFloat.num <$> pyGet nums1 partition1
    let omax2 : Option PyFloat :=
      if partition2 = 0 then some PyFloat.ninf
      else PyFloat.num <$> pyGet nums2 (partition2 - 1)
    let omin2 : Option PyFloat :=
      if partition2 = (nums2.length : ℤ) then some PyFloat.pinf
      else PyFloat.num <$> pyGet nums2 partition2
    match omax1, omin1, omax2, omin2 with
    | some max1, some min1, some max2, some min2 =>
      if PyFloat.le max1 min2 && PyFloat.le max2 min1 then
        if ((nums1.length : ℤ) + (nums2.length : ℤ)) % 2 = 0 then
          PyRet.value (pyHalf (pyAdd (pmax max1 max2) (pmin min1 min2)))
        else
          PyRet.value (pmax max1 max2)
      else if PyFloat.gt max1 min2 then
        searchLoop nums1 nums2 left (partition1 - 1)
      else
        searchLoop nums1 nums2 (partition1 + 1) right
    | _, _, _, _ => PyRet.idxErr
  else PyRet.noneRet
termination_by (right + 1 - left).toNat
decreasing_by
  · simp only [partition1Of]
    omega
  · simp only [partition1Of]
    omega

/-- The Python function `findMedianSortedArrays(nums1, nums2)`: swap the two
lists when the first is longer (lines 2-3), then run the search with
`left = 0, right = m` (line 5). -/
def findMedianSortedArrays (nums1 nums2 : List ℚ) : PyRet :=
  if nums2.length < nums1.length then searchLoop nums2 nums1 0 nums2.length
  else searchLoop nums1 nums2 0 nums1.length

/-- The combined sorted order of the two inputs: sort the concatenation. -/
def mergedOf (nums1 nums2 : List ℚ) : List ℚ :=
  (nums1 ++ nums2).insertionSort (· ≤ ·)

/-- The textbook median of a sorted list: the middle element when the length
is odd, the mean of the two middle elements when it is even. -/
def medianOf (l : List ℚ) : PyFloat :=
  if l.length % 2 = 1 then PyFloat.num (l.getD (l.length / 2) 0)
  else PyFloat.num ((l.getD (l.length / 2 - 1) 0 + l.getD (l.length / 2) 0) / 2)

/-- The `maxLeft` boundary value of a cut at `p`: the sentinel `-inf` at
`p = 0`, otherwise the last element of the left part (line 9/11). -/
def maxLeftOf (l : List ℚ) (p : ℕ) : PyFloat :=
  if p = 0 then PyFloat.ninf else PyFloat.num (l.getD (p - 1) 0)

/-- The `minRight` boundary value of a cut at `p`: the sentinel `inf` at
`p = length`, otherwise the first element of the right part (line 10/12). -/
def minRightOf (l : List ℚ) (p : ℕ) : PyFloat :=
  if p = l.length then PyFloat.pinf else PyFloat.num (l.getD p 0)

/-- The number of elements the algorithm puts in the left half:
`(m + n + 1) // 2`. -/
def halfCount (nums1 nums2 : List ℚ) : ℕ := (nums1.length + nums2.length + 1) / 2

/-- Order embedding of the non-`nan` floats into a linear order with
bottom and top, used to reason about the sentinel comparisons. -/
def PyFloat.toExt : PyFloat → WithBot (WithTop ℚ)
  | .nan => ⊥
  | .ninf => ⊥
  | .pinf => ((⊤ : WithTop ℚ) : WithBot (WithTop ℚ))
  | .num a => (((a : WithTop ℚ) : WithBot (WithTop ℚ)))

/-- The correct-partition test of line 13 at cut `p` of `nums1`:
`maxLeftA <= minRightB and maxLeftB <= minRightA`. -/
def GoodAt (nums1 nums2 : List ℚ) (p : ℕ) : Prop :=
  (maxLeftOf nums1 p).toExt ≤ (minRightOf nums2 (halfCount nums1 nums2 - p)).toExt ∧
  (maxLeftOf nums2 (halfCount nums1 nums2 - p)).toExt ≤ (minRightOf nums1 p).toExt

instance (nums1 nums2 : List ℚ) (p : ℕ) : Decidable (GoodAt nums1 nums2 p) :=
  inferInstanceAs (Decidable (And _ _))

theorem maxLeftOf_ne_nan (l : List ℚ) (p : ℕ) : maxLeftOf l p ≠ PyFloat.nan := by
  unfold maxLeftOf
  split <;> simp

theorem minRightOf_ne_nan (l : List ℚ) (p : ℕ) : minRightOf l p ≠ PyFloat.nan := by
  unfold minRightOf
  split <;> simp

theorem PyFloat.le_iff_toExt {a b : PyFloat} (ha : a ≠ PyFloat.nan) (hb : b ≠ PyFloat.nan) :
    PyFloat.le a b = true ↔ a.toExt ≤ b.toExt := by
  cases a <;> cases b <;>
    simp_all [PyFloat.le, PyFloat.toExt, WithBot.coe_le_coe, WithTop.coe_le_coe, top_le_iff]

theorem PyFloat.lt_iff_toExt {a b : PyFloat} (ha : a ≠ PyFloat.nan) (hb : b ≠ PyFloat.nan) :
    PyFloat.lt a b = true ↔ a.toExt < b.toExt := by
  cases a <;> cases b <;>
    simp_all [PyFloat.lt, PyFloat.toExt, WithBot.coe_lt_coe, WithTop.coe_lt_coe,
      WithBot.bot_lt_coe, WithTop.coe_lt_top, lt_irrefl]
  exact WithBot.coe_lt_coe.mpr (WithTop.coe_lt_top _)

theorem pmax_num_num (a b : ℚ) : pmax (PyFloat.num a) (PyFloat.num b) = PyFloat.num (max a b) := by
  by_cases h : a < b
  · simp [pmax, PyFloat.lt, h, max_eq_right h.le]
  · simp [pmax, PyFloat.lt, h, max_eq_left (not_lt.mp h)]

theorem pmax_num_ninf (a : ℚ) : pmax (PyFloat.num a) PyFloat.ninf = PyFloat.num a := by
  simp [pmax, PyFloat.lt]

theorem pmax_ninf_num (b : ℚ) : pmax PyFloat.ninf (PyFloat.num b) = PyFloat.num b := by
  simp [pmax, PyFloat.lt]

theorem pmin_num_num (a b : ℚ) : pmin (PyFloat.num a) (PyFloat.num b) = PyFloat.num (min a b) := by
  by_cases h : b < a
  · simp [pmin, PyFloat.lt, h, min_eq_right h.le]
  · simp [pmin, PyFloat.lt, h, min_eq_left (not_lt.mp h)]

theorem pmin_num_pinf (a : ℚ) : pmin (PyFloat.num a) PyFloat.pinf = PyFloat.num a := by
  simp [pmin, PyFloat.lt]

theorem pmin_pinf_num (b : ℚ) : pmin PyFloat.pinf (PyFloat.num b) = PyFloat.num b := by
  simp [pmin, PyFloat.lt]

theorem toExt_le_pinf (a : PyFloat) : a.toExt ≤ PyFloat.pinf.toExt := by
  cases a <;> simp [PyFloat.toExt, WithBot.coe_le_coe]

theorem sorted_getElem_mono (l : List ℚ) (hl : l.Sorted (· ≤ ·)) {i j : ℕ}
    (hi : i < l.length) (hj : j < l.length) (hij : i ≤ j) : l[i] ≤ l[j] := by
  have h := hl.rel_get_of_le (a := ⟨i, hi⟩) (b := ⟨j, hj⟩) (Fin.mk_le_mk.mpr hij)
  simpa [List.get_eq_getElem] using h

theorem sorted_getD_mono (l : List ℚ) (hl : l.Sorted (· ≤ ·)) {i j : ℕ}
    (hij : i ≤ j) (hj : j < l.length) : l.getD i 0 ≤ l.getD j 0 := by
  have hi : i < l.length := lt_of_le_of_lt hij hj
  rw [List.getD_eq_getElem l 0 hi, List.getD_eq_getElem l 0 hj]
  exact sorted_getElem_mono l hl hi hj hij

theorem mem_take_le (l : List ℚ) (hl : l.Sorted (· ≤ ·)) {p : ℕ} (hp : p ≤ l.length)
    {x : ℚ} (hx : x ∈ l.take p) : x ≤ l.getD (p - 1) 0 := by
  obtain ⟨i, hi, hix⟩ := List.mem_iff_getElem.mp hx
  have hi2 : i < p := by simp [List.length_take] at hi; omega
  have hilen : i < l.length := by omega
  have hp1 : p - 1 < l.length := by omega
  rw [List.getElem_take] at hix
  rw [← hix, List.getD_eq_getElem l 0 hp1]
  exact sorted_getElem_mono l hl hilen hp1 (by omega)

theorem mem_drop_ge (l : List ℚ) (hl : l.Sorted (· ≤ ·)) {p : ℕ}
    {y : ℚ} (hy : y ∈ l.drop p) : l.getD p 0 ≤ y := by
  obtain ⟨i, hi, hiy⟩ := List.mem_iff_getElem.mp hy
  have hlen : i < l.length - p := by simpa [List.length_drop] using hi
  have hplen : p < l.length := by omega
  rw [List.getElem_drop] at hiy
  rw [← hiy, List.getD_eq_getElem l 0 hplen]
  exact sorted_getElem_mono l hl hplen (by omega) (by omega)

theorem getD_mem_take (l : List ℚ) {i p : ℕ} (hip : i < p) (hp : p ≤ l.length) :
    l.getD i 0 ∈ l.take p := by
  have hi : i < l.length := by omega
  have ht : i < (l.take p).length := by simp [List.length_take]; omega
  rw [List.getD_eq_getElem l 0 hi]
  have he : (l.take p)[i] = l[i] := List.getElem_take l
  rw [← he]
  exact List.getElem_mem ht

theorem getD_mem_drop (l : List ℚ) {p : ℕ} (hp : p < l.length) :
    l.getD p 0 ∈ l.drop p := by
  have hd : 0 < (l.drop p).length := by simp [List.length_drop]; omega
  rw [List.getD_eq_getElem l 0 hp]
  have he : (l.drop p)[0] = l[p + 0] := List.getElem_drop l
  have he2 : l[p + 0] = l[p] := by simp
  rw [← he2, ← he]
  exact List.getElem_mem hd

theorem length_le_halfCount (nums1 nums2 : List ℚ) (hmn : nums1.length ≤ nums2.length) :
    nums1.length ≤ halfCount nums1 nums2 := by
  unfold halfCount
  omega

theorem halfCount_le_length (nums1 nums2 : List ℚ) (hmn : nums1.length ≤ nums2.length) :
    halfCount nums1 nums2 ≤ nums2.length := by
  unfold halfCount
  omega

theorem maxLeftOf_mono (l : List ℚ) (hl : l.Sorted (· ≤ ·)) {p q : ℕ}
    (hpq : p ≤ q) (hq : q ≤ l.length) :
    (maxLeftOf l p).toExt ≤ (maxLeftOf l q).toExt := by
  by_cases hp0 : p = 0
  · have h : maxLeftOf l p = PyFloat.ninf := by simp [maxLeftOf, hp0]
    rw [h]
    exact bot_le
  · have hq0 : q ≠ 0 := by omega
    simp only [maxLeftOf, if_neg hp0, if_neg hq0, PyFloat.toExt]
    rw [WithBot.coe_le_coe, WithTop.coe_le_coe]
    exact sorted_getD_mono l hl (by omega) (by omega)

theorem minRightOf_mono (l : List ℚ) (hl : l.Sorted (· ≤ ·)) {p q : ℕ}
    (hpq : p ≤ q) (hq : q ≤ l.length) :
    (minRightOf l p).toExt ≤ (minRightOf l q).toExt := by
  by_cases hql : q = l.length
  · have h : minRightOf l q = PyFloat.pinf := by simp [minRightOf, hql]
    rw [h]
    exact toExt_le_pinf _
  · have hpl : p ≠ l.length := by omega
    simp only [minRightOf, if_neg hpl, if_neg hql, PyFloat.toExt]
    rw [WithBot.coe_le_coe, WithTop.coe_le_coe]
    exact sorted_getD_mono l hl hpq (by omega)

theorem exists_goodAt (nums1 nums2 : List ℚ) (hmn : nums1.length ≤ nums2.length) :
    ∃ p, p ≤ nums1.length ∧ GoodAt nums1 nums2 p := by
  letI : DecidablePred (fun p : ℕ =>
      (maxLeftOf nums1 p).toExt ≤ (minRightOf nums2 (halfCount nums1 nums2 - p)).toExt) :=
    fun p => inferInstanceAs (Decidable (_ ≤ _))
  set H := halfCount nums1 nums2 with hHdef
  have hHn : H ≤ nums2.length := halfCount_le_length nums1 nums2 hmn
  have hP0 : (maxLeftOf nums1 0).toExt ≤ (minRightOf nums2 (H - 0)).toExt := by
    have h : maxLeftOf nums1 0 = PyFloat.ninf := by simp [maxLeftOf]
    rw [h]
    exact bot_le
  set t := Nat.findGreatest (fun p : ℕ =>
      (maxLeftOf nums1 p).toExt ≤ (minRightOf nums2 (H - p)).toExt) nums1.length with htdef
  have htm : t ≤ nums1.length := Nat.findGreatest_le nums1.length
  have htP : (maxLeftOf nums1 t).toExt ≤ (minRightOf nums2 (H - t)).toExt :=
    Nat.findGreatest_spec (P := fun p : ℕ =>
      (maxLeftOf nums1 p).toExt ≤ (minRightOf nums2 (H - p)).toExt)
      (Nat.zero_le nums1.length) hP0
  refine ⟨t, htm, htP, ?_⟩
  by_cases htm2 : t = nums1.length
  · have h : minRightOf nums1 t = PyFloat.pinf := by simp [minRightOf, htm2]
    rw [h]
    exact toExt_le_pinf _
  · have hfail : ¬ (maxLeftOf nums1 (t + 1)).toExt ≤ (minRightOf nums2 (H - (t + 1))).toExt := by
      refine Nat.findGreatest_is_greatest (P := fun p : ℕ =>
        (maxLeftOf nums1 p).toExt ≤ (minRightOf nums2 (H - p)).toExt)
        (n := nums1.length) ?w1 (by omega)
      case w1 =>
        rw [htdef]
        exact Nat.lt_succ_self _
    have hlt : (minRightOf nums2 (H - (t + 1))).toExt < (maxLeftOf nums1 (t + 1)).toExt :=
      not_le.mp hfail
    have hmax1 : maxLeftOf nums1 (t + 1) = PyFloat.num (nums1.getD t 0) := by
      simp [maxLeftOf]
    by_cases hHt : H - t = 0
    · have h : maxLeftOf nums2 (H - t) = PyFloat.ninf := by simp [maxLeftOf, hHt]
      rw [h]
      exact bot_le
    · have hne : H - (t + 1) ≠ nums2.length := by omega
      have hmin2 : minRightOf nums2 (H - (t + 1)) = PyFloat.num (nums2.getD (H - t - 1) 0) := by
        have : H - (t + 1) = H - t - 1 := by omega
        rw [this]
        simp [minRightOf]
        omega
      rw [hmax1, hmin2] at hlt
      have hba : nums2.getD (H - t - 1) 0 < nums1.getD t 0 := by
        simpa [PyFloat.toExt, WithBot.coe_lt_coe, WithTop.coe_lt_coe] using hlt
      have hmax2 : maxLeftOf nums2 (H - t) = PyFloat.num (nums2.getD (H - t - 1) 0) := by
        simp [maxLeftOf, hHt]
      have hmin1 : minRightOf nums1 t = PyFloat.num (nums1.getD t 0) := by
        simp [minRightOf, htm2]
      rw [hmax2, hmin1]
      simp only [PyFloat.toExt]
      rw [WithBot.coe_le_coe, WithTop.coe_le_coe]
      exact hba.le

theorem getD_append_left (l l' : List ℚ) {n : ℕ} (h : n < l.length) :
    (l ++ l').getD n 0 = l.getD n 0 := by
  simp [List.getD, List.getElem?_append_left h]

theorem getD_append_right (l l' : List ℚ) {n : ℕ} (h : l.length ≤ n) :
    (l ++ l').getD n 0 = l'.getD (n - l.length) 0 := by
  simp [List.getD, List.getElem?_append_right h]

theorem sorted_last_eq (L : List ℚ) (hL : L.Sorted (· ≤ ·)) {q : ℚ} (hq : q ∈ L)
    (hub : ∀ x ∈ L, x ≤ q) : L.getD (L.length - 1) 0 = q := by
  have h0 : 0 < L.length := List.length_pos.mpr (List.ne_nil_of_mem hq)
  have hlast : L.length - 1 < L.length := by omega
  rw [List.getD_eq_getElem L 0 hlast]
  obtain ⟨i, hi, hiq⟩ := List.mem_iff_getElem.mp hq
  apply le_antisymm
  · exact hub _ (List.getElem_mem hlast)
  · rw [← hiq]
    exact sorted_getElem_mono L hL hi hlast (by omega)

theorem sorted_head_eq (L : List ℚ) (hL : L.Sorted (· ≤ ·)) {q : ℚ} (hq : q ∈ L)
    (hlb : ∀ x ∈ L, q ≤ x) : L.getD 0 0 = q := by
  have h0 : 0 < L.length := List.length_pos.mpr (List.ne_nil_of_mem hq)
  rw [List.getD_eq_getElem L 0 h0]
  obtain ⟨i, hi, hiq⟩ := List.mem_iff_getElem.mp hq
  apply le_antisymm
  · rw [← hiq]
    exact sorted_getElem_mono L hL h0 hi (by omega)
  · exact hlb _ (List.getElem_mem h0)

theorem mergedOf_split (nums1 nums2 : List ℚ) (p p2 : ℕ)
    (_hp : p ≤ nums1.length) (_hp2 : p2 ≤ nums2.length)
    (hcross : ∀ x ∈ nums1.take p ++ nums2.take p2,
      ∀ y ∈ nums1.drop p ++ nums2.drop p2, x ≤ y) :
    mergedOf nums1 nums2 =
      (nums1.take p ++ nums2.take p2).insertionSort (· ≤ ·) ++
        (nums1.drop p ++ nums2.drop p2).insertionSort (· ≤ ·) := by
  have e1 : nums1.take p ++ nums1.drop p = nums1 := List.take_append_drop p nums1
  have e2 : nums2.take p2 ++ nums2.drop p2 = nums2 := List.take_append_drop p2 nums2
  have hperm1 : (nums1 ++ nums2).Perm
      ((nums1.take p ++ nums2.take p2) ++ (nums1.drop p ++ nums2.drop p2)) := by
    conv_lhs => rw [← e1, ← e2]
    have hmid : (nums1.drop p ++ (nums2.take p2 ++ nums2.drop p2)).Perm
        (nums2.take p2 ++ (nums1.drop p ++ nums2.drop p2)) :=
      List.perm_append_comm_assoc _ _ _
    have h3 : (nums1.take p ++ nums1.drop p ++ (nums2.take p2 ++ nums2.drop p2)).Perm
        (nums1.take p ++ (nums2.take p2 ++ (nums1.drop p ++ nums2.drop p2))) := by
      rw [List.append_assoc]
      exact hmid.append_left _
    have h4 : nums1.take p ++ (nums2.take p2 ++ (nums1.drop p ++ nums2.drop p2)) =
        (nums1.take p ++ nums2.take p2) ++ (nums1.drop p ++ nums2.drop p2) := by
      rw [List.append_assoc]
    rw [← h4]
    exact h3
  have hperm : (mergedOf nums1 nums2).Perm
      ((nums1.take p ++ nums2.take p2).insertionSort (· ≤ ·) ++
        (nums1.drop p ++ nums2.drop p2).insertionSort (· ≤ ·)) := by
    refine ((List.perm_insertionSort (· ≤ ·) (nums1 ++ nums2)).trans hperm1).trans ?_
    exact ((List.perm_insertionSort (· ≤ ·) _).symm.append
      (List.perm_insertionSort (· ≤ ·) _).symm)
  refine List.eq_of_perm_of_sorted hperm (List.sorted_insertionSort (· ≤ ·) _) ?_
  refine List.pairwise_append.mpr
    ⟨List.sorted_insertionSort (· ≤ ·) _, List.sorted_insertionSort (· ≤ ·) _, ?_⟩
  intro x hx y hy
  have hx2 : x ∈ nums1.take p ++ nums2.take p2 :=
    (List.perm_insertionSort (· ≤ ·) _).mem_iff.mp hx
  have hy2 : y ∈ nums1.drop p ++ nums2.drop p2 :=
    (List.perm_insertionSort (· ≤ ·) _).mem_iff.mp hy
  exact hcross x hx2 y hy2

theorem pmax_spec (nums1 nums2 : List ℚ) (h1 : nums1.Sorted (· ≤ ·))
    (h2 : nums2.Sorted (· ≤ ·)) {p p2 : ℕ}
    (hp : p ≤ nums1.length) (hp2 : p2 ≤ nums2.length) (hpos : 1 ≤ p + p2) :
    ∃ q : ℚ, pmax (maxLeftOf nums1 p) (maxLeftOf nums2 p2) = PyFloat.num q ∧
      q ∈ nums1.take p ++ nums2.take p2 ∧
      ∀ x ∈ nums1.take p ++ nums2.take p2, x ≤ q := by
  rcases Nat.eq_zero_or_pos p with hp0 | hp0
  · have hp2pos : 1 ≤ p2 := by omega
    have e1 : maxLeftOf nums1 p = PyFloat.ninf := by simp [maxLeftOf, hp0]
    have hne2 : p2 ≠ 0 := by omega
    have e2 : maxLeftOf nums2 p2 = PyFloat.num (nums2.getD (p2 - 1) 0) := by
      simp [maxLeftOf, hne2]
    refine ⟨nums2.getD (p2 - 1) 0, ?_, ?_, ?_⟩
    · rw [e1, e2, pmax_ninf_num]
    · exact List.mem_append.mpr (Or.inr (getD_mem_take nums2 (by omega) hp2))
    · intro x hx
      rcases List.mem_append.mp hx with hx1 | hx2
      · rw [hp0] at hx1
        simp at hx1
      · exact mem_take_le nums2 h2 hp2 hx2
  · rcases Nat.eq_zero_or_pos p2 with hq0 | hq0
    · have hne1 : p ≠ 0 := by omega
      have e1 : maxLeftOf nums1 p = PyFloat.num (nums1.getD (p - 1) 0) := by
        simp [maxLeftOf, hne1]
      have e2 : maxLeftOf nums2 p2 = PyFloat.ninf := by simp [maxLeftOf, hq0]
      refine ⟨nums1.getD (p - 1) 0, ?_, ?_, ?_⟩
      · rw [e1, e2, pmax_num_ninf]
      · exact List.mem_append.mpr (Or.inl (getD_mem_take nums1 (by omega) hp))
      · intro x hx
        rcases List.mem_append.mp hx with hx1 | hx2
        · exact mem_take_le nums1 h1 hp hx1
        · rw [hq0] at hx2
          simp at hx2
    · have hne1 : p ≠ 0 := by omega
      have hne2 : p2 ≠ 0 := by omega
      have e1 : maxLeftOf nums1 p = PyFloat.num (nums1.getD (p - 1) 0) := by
        simp [maxLeftOf, hne1]
      have e2 : maxLeftOf nums2 p2 = PyFloat.num (nums2.getD (p2 - 1) 0) := by
        simp [maxLeftOf, hne2]
      refine ⟨max (nums1.getD (p - 1) 0) (nums2.getD (p2 - 1) 0), ?_, ?_, ?_⟩
      · rw [e1, e2, pmax_num_num]
      · rcases max_choice (nums1.getD (p - 1) 0) (nums2.getD (p2 - 1) 0) with hc | hc
        · rw [hc]
          exact List.mem_append.mpr (Or.inl (getD_mem_take nums1 (by omega) hp))
        · rw [hc]
          exact List.mem_append.mpr (Or.inr (getD_mem_take nums2 (by omega) hp2))
      · intro x hx
        rcases List.mem_append.mp hx with hx1 | hx2
        · exact le_trans (mem_take_le nums1 h1 hp hx1) (le_max_left _ _)
        · exact le_trans (mem_take_le nums2 h2 hp2 hx2) (le_max_right _ _)

theorem pmin_spec (nums1 nums2 : List ℚ) (h1 : nums1.Sorted (· ≤ ·))
    (h2 : nums2.Sorted (· ≤ ·)) {p p2 : ℕ}
    (hp : p ≤ nums1.length) (hp2 : p2 ≤ nums2.length)
    (hpos : p + p2 < nums1.length + nums2.length) :
    ∃ q : ℚ, pmin (minRightOf nums1 p) (minRightOf nums2 p2) = PyFloat.num q ∧
      q ∈ nums1.drop p ++ nums2.drop p2 ∧
      ∀ y ∈ nums1.drop p ++ nums2.drop p2, q ≤ y := by
  rcases Nat.eq_or_lt_of_le hp with hpm | hpm
  · have hq2 : p2 < nums2.length := by omega
    have e1 : minRightOf nums1 p = PyFloat.pinf := by simp [minRightOf, hpm]
    have hne2 : p2 ≠ nums2.length := by omega
    have e2 : minRightOf nums2 p2 = PyFloat.num (nums2.getD p2 0) := by
      simp [minRightOf, hne2]
    refine ⟨nums2.getD p2 0, ?_, ?_, ?_⟩
    · rw [e1, e2, pmin_pinf_num]
    · exact List.mem_append.mpr (Or.inr (getD_mem_drop nums2 hq2))
    · intro y hy
      rcases List.mem_append.mp hy with hy1 | hy2
      · rw [List.drop_eq_nil_of_le (by omega)] at hy1
        simp at hy1
      · exact mem_drop_ge nums2 h2 hy2
  · rcases Nat.eq_or_lt_of_le hp2 with hqm | hqm
    · have hne1 : p ≠ nums1.length := by omega
      have e1 : minRightOf nums1 p = PyFloat.num (nums1.getD p 0) := by
        simp [minRightOf, hne1]
      have e2 : minRightOf nums2 p2 = PyFloat.pinf := by simp [minRightOf, hqm]
      refine ⟨nums1.getD p 0, ?_, ?_, ?_⟩
      · rw [e1, e2, pmin_num_pinf]
      · exact List.mem_append.mpr (Or.inl (getD_mem_drop nums1 hpm))
      · intro y hy
        rcases List.mem_append.mp hy with hy1 | hy2
        · exact mem_drop_ge nums1 h1 hy1
        · rw [List.drop_eq_nil_of_le (by omega)] at hy2
          simp at hy2
    · have hne1 : p ≠ nums1.length := by omega
      have hne2 : p2 ≠ nums2.length := by omega
      have e1 : minRightOf nums1 p = PyFloat.num (nums1.getD p 0) := by
        simp [minRightOf, hne1]
      have e2 : minRightOf nums2 p2 = PyFloat.num (nums2.getD p2 0) := by
        simp [minRightOf, hne2]
      refine ⟨min (nums1.getD p 0) (nums2.getD p2 0), ?_, ?_, ?_⟩
      · rw [e1, e2, pmin_num_num]
      · rcases min_choice (nums1.getD p 0) (nums2.getD p2 0) with hc | hc
        · rw [hc]
          exact List.mem_append.mpr (Or.inl (getD_mem_drop nums1 hpm))
        · rw [hc]
          exact List.mem_append.mpr (Or.inr (getD_mem_drop nums2 hqm))
      · intro y hy
        rcases List.mem_append.mp hy with hy1 | hy2
        · exact le_trans (min_le_left _ _) (mem_drop_ge nums1 h1 hy1)
        · exact le_trans (min_le_right _ _) (mem_drop_ge nums2 h2 hy2)

theorem goodAt_value (nums1 nums2 : List ℚ) (h1 : nums1.Sorted (· ≤ ·))
    (h2 : nums2.Sorted (· ≤ ·)) (hmn : nums1.length ≤ nums2.length)
    (hN : 1 ≤ nums1.length + nums2.length) (p : ℕ) (hp : p ≤ nums1.length)
    (hg : GoodAt nums1 nums2 p) :
    (if (nums1.length + nums2.length) % 2 = 0 then
        pyHalf (pyAdd
          (pmax (maxLeftOf nums1 p) (maxLeftOf nums2 (halfCount nums1 nums2 - p)))
          (pmin (minRightOf nums1 p) (minRightOf nums2 (halfCount nums1 nums2 - p))))
      else pmax (maxLeftOf nums1 p) (maxLeftOf nums2 (halfCount nums1 nums2 - p)))
      = medianOf (mergedOf nums1 nums2) := by
  have hHm := length_le_halfCount nums1 nums2 hmn
  have hHn := halfCount_le_length nums1 nums2 hmn
  have hHval : halfCount nums1 nums2 = (nums1.length + nums2.length + 1) / 2 := rfl
  set p2 := halfCount nums1 nums2 - p with hp2def
  have hp2n : p2 ≤ nums2.length := by omega
  have hpp2 : p + p2 = halfCount nums1 nums2 := by omega
  have hcross : ∀ x ∈ nums1.take p ++ nums2.take p2,
      ∀ y ∈ nums1.drop p ++ nums2.drop p2, x ≤ y := by
    intro x hx y hy
    rcases List.mem_append.mp hx with hx1 | hx2 <;> rcases List.mem_append.mp hy with hy1 | hy2
    · have hplen : p < nums1.length := by
        by_contra hc
        rw [List.drop_eq_nil_of_le (by omega)] at hy1
        simp at hy1
      exact le_trans (mem_take_le nums1 h1 hp hx1)
        (le_trans (sorted_getD_mono nums1 h1 (by omega) hplen) (mem_drop_ge nums1 h1 hy1))
    · have hp0 : p ≠ 0 := by
        intro hc
        rw [hc] at hx1
        simp at hx1
      have hp2len : p2 ≠ nums2.length := by
        intro hc
        rw [List.drop_eq_nil_of_le (by omega)] at hy2
        simp at hy2
      have hgood := hg.1
      rw [show maxLeftOf nums1 p = PyFloat.num (nums1.getD (p - 1) 0) from by
            simp [maxLeftOf, hp0],
          show minRightOf nums2 p2 = PyFloat.num (nums2.getD p2 0) from by
            simp [minRightOf, hp2len]] at hgood
      have hab : nums1.getD (p - 1) 0 ≤ nums2.getD p2 0 := by
        simpa [PyFloat.toExt, WithBot.coe_le_coe, WithTop.coe_le_coe] using hgood
      exact le_trans (mem_take_le nums1 h1 hp hx1) (le_trans hab (mem_drop_ge nums2 h2 hy2))
    · have hq0 : p2 ≠ 0 := by
        intro hc
        rw [hc] at hx2
        simp at hx2
      have hplen : p ≠ nums1.length := by
        intro hc
        rw [List.drop_eq_nil_of_le (by omega)] at hy1
        simp at hy1
      have hgood := hg.2
      rw [show maxLeftOf nums2 p2 = PyFloat.num (nums2.getD (p2 - 1) 0) from by
            simp [maxLeftOf, hq0],
          show minRightOf nums1 p = PyFloat.num (nums1.getD p 0) from by
            simp [minRightOf, hplen]] at hgood
      have hab : nums2.getD (p2 - 1) 0 ≤ nums1.getD p 0 := by
        simpa [PyFloat.toExt, WithBot.coe_le_coe, WithTop.coe_le_coe] using hgood
      exact le_trans (mem_take_le nums2 h2 hp2n hx2) (le_trans hab (mem_drop_ge nums1 h1 hy1))
    · have hq2len : p2 < nums2.length := by
        by_contra hc
        rw [List.drop_eq_nil_of_le (by omega)] at hy2
        simp at hy2
      exact le_trans (mem_take_le nums2 h2 hp2n hx2)
        (le_trans (sorted_getD_mono nums2 h2 (by omega) hq2len) (mem_drop_ge nums2 h2 hy2))
  have hsplit := mergedOf_split nums1 nums2 p p2 hp hp2n hcross
  have hSLlen : ((nums1.take p ++ nums2.take p2).insertionSort (· ≤ ·)).length =
      halfCount nums1 nums2 := by
    rw [List.length_insertionSort, List.length_append, List.length_take, List.length_take]
    omega
  have hLlen : (mergedOf nums1 nums2).length = nums1.length + nums2.length := by
    unfold mergedOf
    rw [List.length_insertionSort, List.length_append]
  have hposL : 1 ≤ p + p2 := by omega
  obtain ⟨qa, hqa, hqamem, hqaub⟩ := pmax_spec nums1 nums2 h1 h2 hp hp2n hposL
  have hL1 : (mergedOf nums1 nums2).getD (halfCount nums1 nums2 - 1) 0 = qa := by
    rw [hsplit, getD_append_left _ _ (by rw [hSLlen]; omega)]
    have hidx : halfCount nums1 nums2 - 1 =
        ((nums1.take p ++ nums2.take p2).insertionSort (· ≤ ·)).length - 1 := by
      rw [hSLlen]
    rw [hidx]
    refine sorted_last_eq _ (List.sorted_insertionSort (· ≤ ·) _) ?_ ?_
    · exact (List.perm_insertionSort (· ≤ ·) _).mem_iff.mpr hqamem
    · intro x hx
      exact hqaub x ((List.perm_insertionSort (· ≤ ·) _).mem_iff.mp hx)
  by_cases hpar : (nums1.length + nums2.length) % 2 = 0
  · rw [if_pos hpar]
    have hposR : p + p2 < nums1.length + nums2.length := by omega
    obtain ⟨qi, hqi, hqimem, hqilb⟩ := pmin_spec nums1 nums2 h1 h2 hp hp2n hposR
    rw [hqa, hqi]
    have hL2 : (mergedOf nums1 nums2).getD (halfCount nums1 nums2) 0 = qi := by
      rw [hsplit, getD_append_right _ _ (by rw [hSLlen])]
      have hidx : halfCount nums1 nums2 -
          ((nums1.take p ++ nums2.take p2).insertionSort (· ≤ ·)).length = 0 := by
        rw [hSLlen]
        omega
      rw [hidx]
      refine sorted_head_eq _ (List.sorted_insertionSort (· ≤ ·) _) ?_ ?_
      · exact (List.perm_insertionSort (· ≤ ·) _).mem_iff.mpr hqimem
      · intro y hy
        exact hqilb y ((List.perm_insertionSort (· ≤ ·) _).mem_iff.mp hy)
    have hmed : medianOf (mergedOf nums1 nums2) = PyFloat.num
        (((mergedOf nums1 nums2).getD ((nums1.length + nums2.length) / 2 - 1) 0 +
          (mergedOf nums1 nums2).getD ((nums1.length + nums2.length) / 2) 0) / 2) := by
      unfold medianOf
      rw [hLlen, if_neg (by omega)]
    rw [hmed]
    have hi1 : (nums1.length + nums2.length) / 2 - 1 = halfCount nums1 nums2 - 1 := by omega
    have hi2 : (nums1.length + nums2.length) / 2 = halfCount nums1 nums2 := by omega
    rw [hi1, hi2, hL1, hL2]
    simp [pyAdd, pyHalf]
  · rw [if_neg hpar, hqa]
    have hmed : medianOf (mergedOf nums1 nums2) = PyFloat.num
        ((mergedOf nums1 nums2).getD ((nums1.length + nums2.length) / 2) 0) := by
      unfold medianOf
      rw [hLlen, if_pos (by omega)]
    rw [hmed]
    have hi1 : (nums1.length + nums2.length) / 2 = halfCount nums1 nums2 - 1 := by omega
    rw [hi1, hL1]

theorem pyGet_some (l : List ℚ) (i : ℤ) (hi0 : 0 ≤ i) (hi1 : i < l.length) :
    pyGet l i = some (l.getD i.toNat 0) := by
  have hnat : i.toNat < l.length := by omega
  simp only [pyGet]
  rw [if_neg (by omega : ¬ i < 0), if_pos hi0,
    List.getElem?_eq_getElem hnat, List.getD_eq_getElem l 0 hnat]

theorem searchLoop_unfold (nums1 nums2 : List ℚ) (left right : ℤ) (q : ℕ)
    (hmn : nums1.length ≤ nums2.length) (h0 : 0 ≤ left)
    (hr : right ≤ (nums1.length : ℤ)) (hlr : left ≤ right)
    (hq : (q : ℤ) = partition1Of left right) :
    searchLoop nums1 nums2 left right =
      (if PyFloat.le (maxLeftOf nums1 q) (minRightOf nums2 (halfCount nums1 nums2 - q)) &&
          PyFloat.le (maxLeftOf nums2 (halfCount nums1 nums2 - q)) (minRightOf nums1 q) then
         if (nums1.length + nums2.length) % 2 = 0 then
           PyRet.value (pyHalf (pyAdd
             (pmax (maxLeftOf nums1 q) (maxLeftOf nums2 (halfCount nums1 nums2 - q)))
             (pmin (minRightOf nums1 q) (minRightOf nums2 (halfCount nums1 nums2 - q)))))
         else PyRet.value (pmax (maxLeftOf nums1 q) (maxLeftOf nums2 (halfCount nums1 nums2 - q)))
       else if PyFloat.gt (maxLeftOf nums1 q) (minRightOf nums2 (halfCount nums1 nums2 - q)) then
         searchLoop nums1 nums2 left ((q : ℤ) - 1)
       else searchLoop nums1 nums2 ((q : ℤ) + 1) right) := by
  have hq0 : 0 ≤ partition1Of left right := by
    unfold partition1Of
    omega
  have hqn : q = (partition1Of left right).toNat := by omega
  subst hqn
  have hp1lb : left ≤ partition1Of left right := by
    unfold partition1Of
    omega
  have hp1ub : partition1Of left right ≤ right := by
    unfold partition1Of
    omega
  have hp1m : partition1Of left right ≤ (nums1.length : ℤ) := le_trans hp1ub hr
  have hp1nn : 0 ≤ partition1Of left right := le_trans h0 hp1lb
  have hHval : halfCount nums1 nums2 = (nums1.length + nums2.length + 1) / 2 := rfl
  have hHm : nums1.length ≤ halfCount nums1 nums2 := length_le_halfCount nums1 nums2 hmn
  have hHn : halfCount nums1 nums2 ≤ nums2.length := halfCount_le_length nums1 nums2 hmn
  have hpnat : ((partition1Of left right).toNat : ℤ) = partition1Of left right := by omega
  have hp2 : partition2Of nums1.length nums2.length (partition1Of left right) =
      ((halfCount nums1 nums2 - (partition1Of left right).toNat : ℕ) : ℤ) := by
    unfold partition2Of
    omega
  have ho1 : (if partition1Of left right = 0 then some PyFloat.ninf
      else PyFloat.num <$> pyGet nums1 (partition1Of left right - 1)) =
      some (maxLeftOf nums1 (partition1Of left right).toNat) := by
    by_cases hz : partition1Of left right = 0
    · rw [if_pos hz]
      have : (partition1Of left right).toNat = 0 := by omega
      rw [this]
      simp [maxLeftOf]
    · rw [if_neg hz, pyGet_some nums1 _ (by omega) (by omega)]
      have ht : (partition1Of left right - 1).toNat = (partition1Of left right).toNat - 1 := by
        omega
      rw [ht]
      simp only [Option.map_eq_map, Option.map_some]
      have hz2 : (partition1Of left right).toNat ≠ 0 := by omega
      rw [show maxLeftOf nums1 (partition1Of left right).toNat =
        PyFloat.num (nums1.getD ((partition1Of left right).toNat - 1) 0) from by
          simp [maxLeftOf, hz2]]
  have ho2 : (if partition1Of left right = (nums1.length : ℤ) then some PyFloat.pinf
      else PyFloat.num <$> pyGet nums1 (partition1Of left right)) =
      some (minRightOf nums1 (partition1Of left right).toNat) := by
    by_cases hz : partition1Of left right = (nums1.length : ℤ)
    · rw [if_pos hz]
      have : (partition1Of left right).toNat = nums1.length := by omega
      rw [this]
      simp [minRightOf]
    · rw [if_neg hz, pyGet_some nums1 _ (by omega) (by omega)]
      simp only [Option.map_eq_map, Option.map_some]
      have hz2 : (partition1Of left right).toNat ≠ nums1.length := by omega
      rw [show minRightOf nums1 (partition1Of left right).toNat =
        PyFloat.num (nums1.getD (partition1Of left right).toNat 0) from by
          simp [minRightOf, hz2]]
  have ho3 : (if partition2Of nums1.length nums2.length (partition1Of left right) = 0
      then some PyFloat.ninf
      else PyFloat.num <$> pyGet nums2
        (partition2Of nums1.length nums2.length (partition1Of left right) - 1)) =
      some (maxLeftOf nums2 (halfCount nums1 nums2 - (partition1Of left right).toNat)) := by
    rw [hp2]
    by_cases hz : halfCount nums1 nums2 - (partition1Of left right).toNat = 0
    · rw [hz]
      simp [maxLeftOf]
    · rw [if_neg (by omega : ¬ ((halfCount nums1 nums2 -
        (partition1Of left right).toNat : ℕ) : ℤ) = 0)]
      rw [pyGet_some nums2 _ (by omega) (by omega)]
      have ht : (((halfCount nums1 nums2 - (partition1Of left right).toNat : ℕ) : ℤ) - 1).toNat =
          halfCount nums1 nums2 - (partition1Of left right).toNat - 1 := by omega
      rw [ht]
      simp only [Option.map_eq_map, Option.map_some]
      rw [show maxLeftOf nums2 (halfCount nums1 nums2 - (partition1Of left right).toNat) =
        PyFloat.num (nums2.getD
          (halfCount nums1 nums2 - (partition1Of left right).toNat - 1) 0) from by
          simp [maxLeftOf, hz]]
  have ho4 : (if partition2Of nums1.length nums2.length (partition1Of left right) =
      (nums2.length : ℤ) then some PyFloat.pinf
      else PyFloat.num <$> pyGet nums2
        (partition2Of nums1.length nums2.length (partition1Of left right))) =
      some (minRightOf nums2 (halfCount nums1 nums2 - (partition1Of left right).toNat)) := by
    rw [hp2]
    by_cases hz : halfCount nums1 nums2 - (partition1Of left right).toNat = nums2.length
    · rw [if_pos (by omega), hz]
      simp [minRightOf]
    · rw [if_neg (by omega : ¬ ((halfCount nums1 nums2 -
        (partition1Of left right).toNat : ℕ) : ℤ) = (nums2.length : ℤ))]
      rw [pyGet_some nums2 _ (by omega) (by omega)]
      have ht : (((halfCount nums1 nums2 - (partition1Of left right).toNat : ℕ) : ℤ)).toNat =
          halfCount nums1 nums2 - (partition1Of left right).toNat := by omega
      rw [ht]
      simp only [Option.map_eq_map, Option.map_some]
      rw [show minRightOf nums2 (halfCount nums1 nums2 - (partition1Of left right).toNat) =
        PyFloat.num (nums2.getD
          (halfCount nums1 nums2 - (partition1Of left right).toNat) 0) from by
          simp [minRightOf, hz]]
  have hpar : ((((nums1.length : ℤ) + (nums2.length : ℤ)) % 2 = 0)) ↔
      ((nums1.length + nums2.length) % 2 = 0) := by omega
  conv_lhs => rw [searchLoop]
  rw [dif_pos hlr]
  simp only [ho1, ho2, ho3, ho4, hpar, hpnat]

theorem searchLoop_eq_median (nums1 nums2 : List ℚ) (h1 : nums1.Sorted (· ≤ ·))
    (h2 : nums2.Sorted (· ≤ ·)) (hmn : nums1.length ≤ nums2.length)
    (hN : 1 ≤ nums1.length + nums2.length) :
    ∀ (k : ℕ) (left right : ℤ), (right + 1 - left).toNat ≤ k → 0 ≤ left →
      right ≤ (nums1.length : ℤ) →
      (∃ p : ℕ, p ≤ nums1.length ∧ left ≤ (p : ℤ) ∧ (p : ℤ) ≤ right ∧ GoodAt nums1 nums2 p) →
      searchLoop nums1 nums2 left right = PyRet.value (medianOf (mergedOf nums1 nums2)) := by
  intro k
  induction k with
  | zero =>
    intro left right hk h0 hr hex
    obtain ⟨p, hpm, hpl, hpr, hgp⟩ := hex
    omega
  | succ k ih =>
    intro left right hk h0 hr hex
    obtain ⟨p, hpm, hpl, hpr, hgp⟩ := hex
    have hlr : left ≤ right := le_trans hpl hpr
    have hp1lb : left ≤ partition1Of left right := by
      unfold partition1Of
      omega
    have hp1ub : partition1Of left right ≤ right := by
      unfold partition1Of
      omega
    have hqz : ((partition1Of left right).toNat : ℤ) = partition1Of left right := by omega
    have hPNm : (partition1Of left right).toNat ≤ nums1.length := by omega
    have hHm := length_le_halfCount nums1 nums2 hmn
    have hHn := halfCount_le_length nums1 nums2 hmn
    rw [searchLoop_unfold nums1 nums2 left right (partition1Of left right).toNat
      hmn h0 hr hlr hqz]
    by_cases htest : (PyFloat.le (maxLeftOf nums1 (partition1Of left right).toNat)
        (minRightOf nums2 (halfCount nums1 nums2 - (partition1Of left right).toNat)) &&
        PyFloat.le (maxLeftOf nums2 (halfCount nums1 nums2 - (partition1Of left right).toNat))
        (minRightOf nums1 (partition1Of left right).toNat)) = true
    · rw [if_pos htest]
      have htest2 := htest
      rw [Bool.and_eq_true] at htest2
      obtain ⟨ht1, ht2⟩ := htest2
      have hgood : GoodAt nums1 nums2 (partition1Of left right).toNat :=
        ⟨(PyFloat.le_iff_toExt (maxLeftOf_ne_nan _ _) (minRightOf_ne_nan _ _)).mp ht1,
         (PyFloat.le_iff_toExt (maxLeftOf_ne_nan _ _) (minRightOf_ne_nan _ _)).mp ht2⟩
      rw [← apply_ite PyRet.value]
      exact congrArg PyRet.value
        (goodAt_value nums1 nums2 h1 h2 hmn hN (partition1Of left right).toNat hPNm hgood)
    · rw [if_neg htest]
      by_cases hgt : PyFloat.gt (maxLeftOf nums1 (partition1Of left right).toNat)
          (minRightOf nums2 (halfCount nums1 nums2 - (partition1Of left right).toNat)) = true
      · rw [if_pos hgt]
        have hfail1 : (minRightOf nums2
            (halfCount nums1 nums2 - (partition1Of left right).toNat)).toExt <
            (maxLeftOf nums1 (partition1Of left right).toNat).toExt :=
          (PyFloat.lt_iff_toExt (minRightOf_ne_nan _ _) (maxLeftOf_ne_nan _ _)).mp hgt
        have hplt : p < (partition1Of left right).toNat := by
          by_contra hc
          have c1 : (maxLeftOf nums1 (partition1Of left right).toNat).toExt ≤
              (maxLeftOf nums1 p).toExt :=
            maxLeftOf_mono nums1 h1 (not_lt.mp hc) hpm
          have c2 : (minRightOf nums2 (halfCount nums1 nums2 - p)).toExt ≤
              (minRightOf nums2
                (halfCount nums1 nums2 - (partition1Of left right).toNat)).toExt :=
            minRightOf_mono nums2 h2 (by omega) (by omega)
          exact absurd (le_trans c1 (le_trans hgp.1 c2)) (not_le.mpr hfail1)
        apply ih
        · omega
        · exact h0
        · omega
        · exact ⟨p, hpm, hpl, by omega, hgp⟩
      · rw [if_neg hgt]
        have hle1 : (maxLeftOf nums1 (partition1Of left right).toNat).toExt ≤
            (minRightOf nums2
              (halfCount nums1 nums2 - (partition1Of left right).toNat)).toExt := by
          by_contra hc
          exact hgt ((PyFloat.lt_iff_toExt (minRightOf_ne_nan _ _)
            (maxLeftOf_ne_nan _ _)).mpr (not_le.mp hc))
        have hle1b : PyFloat.le (maxLeftOf nums1 (partition1Of left right).toNat)
            (minRightOf nums2
              (halfCount nums1 nums2 - (partition1Of left right).toNat)) = true :=
          (PyFloat.le_iff_toExt (maxLeftOf_ne_nan _ _) (minRightOf_ne_nan _ _)).mpr hle1
        have hfail2e : (minRightOf nums1 (partition1Of left right).toNat).toExt <
            (maxLeftOf nums2
              (halfCount nums1 nums2 - (partition1Of left right).toNat)).toExt := by
          by_contra hc
          apply htest
          rw [Bool.and_eq_true]
          exact ⟨hle1b, (PyFloat.le_iff_toExt (maxLeftOf_ne_nan _ _)
            (minRightOf_ne_nan _ _)).mpr (not_lt.mp hc)⟩
        have hpgt : (partition1Of left right).toNat < p := by
          by_contra hc
          have c1 : (maxLeftOf nums2
              (halfCount nums1 nums2 - (partition1Of left right).toNat)).toExt ≤
              (maxLeftOf nums2 (halfCount nums1 nums2 - p)).toExt :=
            maxLeftOf_mono nums2 h2 (by omega) (by omega)
          have c2 : (minRightOf nums1 p).toExt ≤
              (minRightOf nums1 (partition1Of left right).toNat).toExt :=
            minRightOf_mono nums1 h1 (by omega) hPNm
          exact absurd (le_trans c1 (le_trans hgp.2 c2)) (not_le.mpr hfail2e)
        apply ih
        · omega
        · omega
        · exact hr
        · exact ⟨p, hpm, by omega, hpr, hgp⟩

theorem mergedOf_comm (nums1 nums2 : List ℚ) : mergedOf nums1 nums2 = mergedOf nums2 nums1 := by
  unfold mergedOf
  refine List.eq_of_perm_of_sorted ?_ (List.sorted_insertionSort (· ≤ ·) _)
    (List.sorted_insertionSort (· ≤ ·) _)
  exact ((List.perm_insertionSort (· ≤ ·) _).trans List.perm_append_comm).trans
    (List.perm_insertionSort (· ≤ ·) _).symm

theorem findMedian_spec (nums1 nums2 : List ℚ) (h1 : nums1.Sorted (· ≤ ·))
    (h2 : nums2.Sorted (· ≤ ·)) (hne : ¬ (nums1 = [] ∧ nums2 = [])) :
    findMedianSortedArrays nums1 nums2 = PyRet.value (medianOf (mergedOf nums1 nums2)) := by
  have hN : 1 ≤ nums1.length + nums2.length := by
    by_contra hc
    have hm0 : nums1.length = 0 := by omega
    have hn0 : nums2.length = 0 := by omega
    exact hne ⟨List.length_eq_zero.mp hm0, List.length_eq_zero.mp hn0⟩
  unfold findMedianSortedArrays
  by_cases hswap : nums2.length < nums1.length
  · rw [if_pos hswap]
    obtain ⟨p, hpm, hgood⟩ := exists_goodAt nums2 nums1 (le_of_lt hswap)
    rw [searchLoop_eq_median nums2 nums1 h2 h1 (le_of_lt hswap) (by omega)
      ((nums2.length : ℤ) + 1).toNat 0 nums2.length (by omega) (by omega) (by omega)
      ⟨p, hpm, by omega, by omega, hgood⟩]
    rw [mergedOf_comm nums2 nums1]
  · rw [if_neg hswap]
    have hmn : nums1.length ≤ nums2.length := by omega
    obtain ⟨p, hpm, hgood⟩ := exists_goodAt nums1 nums2 hmn
    rw [searchLoop_eq_median nums1 nums2 h1 h2 hmn hN
      ((nums1.length : ℤ) + 1).toNat 0 nums1.length (by omega) (by omega) (by omega)
      ⟨p, hpm, by omega, by omega, hgood⟩]

theorem searchLoop_ne_idxErr (nums1 nums2 : List ℚ) (hmn : nums1.length ≤ nums2.length) :
    ∀ (k : ℕ) (left right : ℤ), (right + 1 - left).toNat ≤ k → 0 ≤ left →
      right ≤ (nums1.length : ℤ) → searchLoop nums1 nums2 left right ≠ PyRet.idxErr := by
  intro k
  induction k with
  | zero =>
    intro left right hk h0 hr
    have hlr : ¬ left ≤ right := by omega
    rw [searchLoop, dif_neg hlr]
    simp
  | succ k ih =>
    intro left right hk h0 hr
    by_cases hlr : left ≤ right
    · have hp1lb : left ≤ partition1Of left right := by
        unfold partition1Of
        omega
      have hp1ub : partition1Of left right ≤ right := by
        unfold partition1Of
        omega
      have hqz : ((partition1Of left right).toNat : ℤ) = partition1Of left right := by omega
      rw [searchLoop_unfold nums1 nums2 left right (partition1Of left right).toNat
        hmn h0 hr hlr hqz]
      by_cases htest : (PyFloat.le (maxLeftOf nums1 (partition1Of left right).toNat)
          (minRightOf nums2 (halfCount nums1 nums2 - (partition1Of left right).toNat)) &&
          PyFloat.le (maxLeftOf nums2 (halfCount nums1 nums2 - (partition1Of left right).toNat))
          (minRightOf nums1 (partition1Of left right).toNat)) = true
      · rw [if_pos htest]
        split <;> simp
      · rw [if_neg htest]
        by_cases hgt : PyFloat.gt (maxLeftOf nums1 (partition1Of left right).toNat)
            (minRightOf nums2 (halfCount nums1 nums2 - (partition1Of left right).toNat)) = true
        · rw [if_pos hgt]
          exact ih _ _ (by omega) h0 (by omega)
        · rw [if_neg hgt]
          exact ih _ _ (by omega) (by omega) hr
    · rw [searchLoop, dif_neg hlr]
      simp

/-- C1: for every pair of ascending-sorted sequences, not both empty,
`findMedianSortedArrays` returns the median of the combined sorted order:
the middle element of the sorted merge when the combined length is odd, and
the mean of the two middle elements when it is even. -/
theorem findMedianSortedArrays_eq_merged_median (nums1 nums2 : List ℚ)
    (h1 : nums1.Sorted (· ≤ ·)) (h2 : nums2.Sorted (· ≤ ·))
    (hne : ¬ (nums1 = [] ∧ nums2 = [])) :
    findMedianSortedArrays nums1 nums2 = PyRet.value (medianOf (mergedOf nums1 nums2)) :=
  findMedian_spec nums1 nums2 h1 h2 hne

/-- Witness for C1 at the concrete input `[1, 3]`, `[2]`. -/
theorem findMedianSortedArrays_eq_merged_median_witness :
    List.Sorted (· ≤ ·) [(1 : ℚ), 3] ∧ List.Sorted (· ≤ ·) [(2 : ℚ)] ∧
      ¬ ([(1 : ℚ), 3] = [] ∧ [(2 : ℚ)] = []) ∧
      findMedianSortedArrays [1, 3] [2] = PyRet.value (medianOf (mergedOf [1, 3] [2])) :=
  ⟨by decide, by decide, by simp,
    findMedianSortedArrays_eq_merged_median [1, 3] [2] (by decide) (by decide) (by simp)⟩

/-- C2 evaluation: on two empty sequences the code does not raise; the
correct-partition test passes immediately with all four boundary values
sentinels, and the even branch returns `((-inf) + inf) / 2`, which is `nan`.
The claim that the function fails with an explicit error is false of the
code: it silently returns the float `nan`. -/
theorem findMedianSortedArrays_nil_nil_eq_nan :
    findMedianSortedArrays [] [] = PyRet.value PyFloat.nan := by
  have h : ((0 : ℕ) : ℤ) = partition1Of 0 0 := by decide
  rw [show findMedianSortedArrays [] [] = searchLoop [] [] 0 0 from rfl,
    searchLoop_unfold [] [] 0 0 0 (by decide) (by decide) (by decide) (by decide) h]
  decide

/-- C3: at every candidate partition, the two cut indices as computed on
lines 7-8 of the source satisfy
`partition1 + partition2 = ceil((m + n) / 2)`; this holds for every value
of `left` and `right`, hence before, during, and after the search. -/
theorem partition_sum_invariant (m n : ℕ) (left right : ℤ) :
    partition1Of left right + partition2Of m n (partition1Of left right) =
      ⌈((m : ℚ) + n) / 2⌉ := by
  have h1 : partition1Of left right + partition2Of m n (partition1Of left right) =
      ((m : ℤ) + n + 1) / 2 := by
    unfold partition1Of partition2Of
    omega
  have h2 : ⌈((m : ℚ) + n) / 2⌉ = ((m : ℤ) + n + 1) / 2 := by
    rw [Int.ceil_eq_iff]
    constructor
    · rw [lt_div_iff₀ (by norm_num : (0 : ℚ) < 2)]
      have hz : ((((m : ℤ) + n + 1) / 2) - 1) * 2 < (m : ℤ) + n := by omega
      exact_mod_cast hz
    · rw [div_le_iff₀ (by norm_num : (0 : ℚ) < 2)]
      have hz : (m : ℤ) + n ≤ (((m : ℤ) + n + 1) / 2) * 2 := by omega
      exact_mod_cast hz
  rw [h1, h2]

/-- C4: for sorted inputs that are not both empty, the loop returns a value
through the correct-partition branch: the function result is an explicit
`return`, never the implicit `None` fall-through (and never an error). -/
theorem search_terminates_with_value (nums1 nums2 : List ℚ)
    (h1 : nums1.Sorted (· ≤ ·)) (h2 : nums2.Sorted (· ≤ ·))
    (hne : ¬ (nums1 = [] ∧ nums2 = [])) :
    ∃ v : PyFloat, findMedianSortedArrays nums1 nums2 = PyRet.value v :=
  ⟨medianOf (mergedOf nums1 nums2), findMedian_spec nums1 nums2 h1 h2 hne⟩

/-- Witness for C4 at the concrete input `[1]`, `[2]`. -/
theorem search_terminates_with_value_witness :
    List.Sorted (· ≤ ·) [(1 : ℚ)] ∧ List.Sorted (· ≤ ·) [(2 : ℚ)] ∧
      ¬ ([(1 : ℚ)] = [] ∧ [(2 : ℚ)] = []) ∧
      ∃ v : PyFloat, findMedianSortedArrays [1] [2] = PyRet.value v :=
  ⟨by decide, by decide, by simp,
    search_terminates_with_value [1] [2] (by decide) (by decide) (by simp)⟩

/-- C5: for all inputs whatsoever, every element access performed by the
loop is in bounds whenever its sentinel guard does not fire, so the
function never raises `IndexError`; this only uses that the searched
sequence is the shorter one after the swap. -/
theorem no_index_error (nums1 nums2 : List ℚ) :
    findMedianSortedArrays nums1 nums2 ≠ PyRet.idxErr := by
  unfold findMedianSortedArrays
  by_cases hswap : nums2.length < nums1.length
  · rw [if_pos hswap]
    exact searchLoop_ne_idxErr nums2 nums1 (le_of_lt hswap)
      ((nums2.length : ℤ) + 1).toNat 0 nums2.length (by omega) (by omega) (by omega)
  · rw [if_neg hswap]
    exact searchLoop_ne_idxErr nums1 nums2 (by omega)
      ((nums1.length : ℤ) + 1).toNat 0 nums1.length (by omega) (by omega) (by omega)

/-- C6: for sorted inputs, not both empty, the result does not depend on
the argument order: `findMedianSortedArrays(A, B) = findMedianSortedArrays(B, A)`. -/
theorem findMedianSortedArrays_comm (nums1 nums2 : List ℚ)
    (h1 : nums1.Sorted (· ≤ ·)) (h2 : nums2.Sorted (· ≤ ·))
    (hne : ¬ (nums1 = [] ∧ nums2 = [])) :
    findMedianSortedArrays nums1 nums2 = findMedianSortedArrays nums2 nums1 := by
  rw [findMedian_spec nums1 nums2 h1 h2 hne,
    findMedian_spec nums2 nums1 h2 h1 (fun hc => hne ⟨hc.2, hc.1⟩),
    mergedOf_comm]

/-- Witness for C6 at the concrete input `[1]`, `[2]`. -/
theorem findMedianSortedArrays_comm_witness :
    List.Sorted (· ≤ ·) [(1 : ℚ)] ∧ List.Sorted (· ≤ ·) [(2 : ℚ)] ∧
      ¬ ([(1 : ℚ)] = [] ∧ [(2 : ℚ)] = []) ∧
      findMedianSortedArrays [1] [2] = findMedianSortedArrays [2] [1] :=
  ⟨by decide, by decide, by simp,
    findMedianSortedArrays_comm [1] [2] (by decide) (by decide) (by simp)⟩

/-- C7: whenever the correct-partition test of line 13 succeeds at the cut
`q`, the loop returns `(max(maxLeftA, maxLeftB) + min(minRightA, minRightB)) / 2`
when the combined length is even and `max(maxLeftA, maxLeftB)` when it is
odd, where the boundary values carry the `-inf` / `inf` sentinels at the
extreme cuts. -/
theorem loop_success_value (nums1 nums2 : List ℚ) (left right : ℤ) (q : ℕ)
    (hmn : nums1.length ≤ nums2.length) (h0 : 0 ≤ left)
    (hr : right ≤ (nums1.length : ℤ)) (hlr : left ≤ right)
    (hq : (q : ℤ) = partition1Of left right)
    (htest : (PyFloat.le (maxLeftOf nums1 q) (minRightOf nums2 (halfCount nums1 nums2 - q)) &&
      PyFloat.le (maxLeftOf nums2 (halfCount nums1 nums2 - q)) (minRightOf nums1 q)) = true) :
    searchLoop nums1 nums2 left right =
      if (nums1.length + nums2.length) % 2 = 0 then
        PyRet.value (pyHalf (pyAdd
          (pmax (maxLeftOf nums1 q) (maxLeftOf nums2 (halfCount nums1 nums2 - q)))
          (pmin (minRightOf nums1 q) (minRightOf nums2 (halfCount nums1 nums2 - q)))))
      else
        PyRet.value (pmax (maxLeftOf nums1 q) (maxLeftOf nums2 (halfCount nums1 nums2 - q))) := by
  rw [searchLoop_unfold nums1 nums2 left right q hmn h0 hr hlr hq, if_pos htest]

/-- Witness for C7 at `nums1 = [1]`, `nums2 = [2]`, `left = right = 1`,
where the cut `q = 1` passes the test. -/
theorem loop_success_value_witness :
    ([(1 : ℚ)].length ≤ [(2 : ℚ)].length) ∧ ((0 : ℤ) ≤ 1) ∧ ((1 : ℤ) ≤ ([(1 : ℚ)].length : ℤ)) ∧
      ((1 : ℤ) ≤ 1) ∧ (((1 : ℕ) : ℤ) = partition1Of 1 1) ∧
      ((PyFloat.le (maxLeftOf [(1 : ℚ)] 1) (minRightOf [(2 : ℚ)] (halfCount [(1 : ℚ)] [(2 : ℚ)] - 1)) &&
        PyFloat.le (maxLeftOf [(2 : ℚ)] (halfCount [(1 : ℚ)] [(2 : ℚ)] - 1)) (minRightOf [(1 : ℚ)] 1)) = true) ∧
      searchLoop [(1 : ℚ)] [(2 : ℚ)] 1 1 =
        (if ([(1 : ℚ)].length + [(2 : ℚ)].length) % 2 = 0 then
          PyRet.value (pyHalf (pyAdd
            (pmax (maxLeftOf [(1 : ℚ)] 1) (maxLeftOf [(2 : ℚ)] (halfCount [(1 : ℚ)] [(2 : ℚ)] - 1)))
            (pmin (minRightOf [(1 : ℚ)] 1) (minRightOf [(2 : ℚ)] (halfCount [(1 : ℚ)] [(2 : ℚ)] - 1)))))
        else
          PyRet.value (pmax (maxLeftOf [(1 : ℚ)] 1)
            (maxLeftOf [(2 : ℚ)] (halfCount [(1 : ℚ)] [(2 : ℚ)] - 1)))) :=
  ⟨by decide, by decide, by decide, by decide, by decide, by decide,
    loop_success_value [1] [2] 1 1 1 (by decide) (by decide) (by decide) (by decide)
      (by decide) (by decide)⟩

/-- C8: whenever the correct-partition test fails at the cut `q`, the loop
takes exactly one of two steps: if `maxLeftA > minRightB` it continues with
`right = partition1 - 1`, otherwise with `left = partition1 + 1`. -/
theorem loop_fail_step (nums1 nums2 : List ℚ) (left right : ℤ) (q : ℕ)
    (hmn : nums1.length ≤ nums2.length) (h0 : 0 ≤ left)
    (hr : right ≤ (nums1.length : ℤ)) (hlr : left ≤ right)
    (hq : (q : ℤ) = partition1Of left right)
    (htest : (PyFloat.le (maxLeftOf nums1 q) (minRightOf nums2 (halfCount nums1 nums2 - q)) &&
      PyFloat.le (maxLeftOf nums2 (halfCount nums1 nums2 - q)) (minRightOf nums1 q)) = false) :
    searchLoop nums1 nums2 left right =
      if PyFloat.gt (maxLeftOf nums1 q) (minRightOf nums2 (halfCount nums1 nums2 - q)) then
        searchLoop nums1 nums2 left ((q : ℤ) - 1)
      else
        searchLoop nums1 nums2 ((q : ℤ) + 1) right := by
  rw [searchLoop_unfold nums1 nums2 left right q hmn h0 hr hlr hq,
    if_neg (by simp [htest])]

/-- Witness for C8 at `nums1 = [1]`, `nums2 = [2]`, `left = 0`, `right = 1`,
where the cut `q = 0` fails the test. -/
theorem loop_fail_step_witness :
    ([(1 : ℚ)].length ≤ [(2 : ℚ)].length) ∧ ((0 : ℤ) ≤ 0) ∧ ((1 : ℤ) ≤ ([(1 : ℚ)].length : ℤ)) ∧
      ((0 : ℤ) ≤ 1) ∧ (((0 : ℕ) : ℤ) = partition1Of 0 1) ∧
      ((PyFloat.le (maxLeftOf [(1 : ℚ)] 0) (minRightOf [(2 : ℚ)] (halfCount [(1 : ℚ)] [(2 : ℚ)] - 0)) &&
        PyFloat.le (maxLeftOf [(2 : ℚ)] (halfCount [(1 : ℚ)] [(2 : ℚ)] - 0)) (minRightOf [(1 : ℚ)] 0)) = false) ∧
      searchLoop [(1 : ℚ)] [(2 : ℚ)] 0 1 =
        (if PyFloat.gt (maxLeftOf [(1 : ℚ)] 0) (minRightOf [(2 : ℚ)] (halfCount [(1 : ℚ)] [(2 : ℚ)] - 0)) then
          searchLoop [(1 : ℚ)] [(2 : ℚ)] 0 (((0 : ℕ) : ℤ) - 1)
        else
          searchLoop [(1 : ℚ)] [(2 : ℚ)] (((0 : ℕ) : ℤ) + 1) 1) :=
  ⟨by decide, by decide, by decide, by decide, by decide, by decide,
    loop_fail_step [1] [2] 0 1 0 (by decide) (by decide) (by decide) (by decide)
      (by decide) (by decide)⟩

/-- C9: the function returns the specified values on the boundary examples:
`([], [2,3,4]) = 3`, `([], [1,2]) = 1.5`, `([1], [2]) = 1.5`,
`([1,3], [2]) = 2`, `([1,2], [3,4]) = 2.5`, and `([1,1], [1,1]) = 1`. -/
theorem boundary_examples :
    findMedianSortedArrays [] [2, 3, 4] = PyRet.value (PyFloat.num 3) ∧
    findMedianSortedArrays [] [1, 2] = PyRet.value (PyFloat.num (3 / 2)) ∧
    findMedianSortedArrays [1] [2] = PyRet.value (PyFloat.num (3 / 2)) ∧
    findMedianSortedArrays [1, 3] [2] = PyRet.value (PyFloat.num 2) ∧
    findMedianSortedArrays [1, 2] [3, 4] = PyRet.value (PyFloat.num (5 / 2)) ∧
    findMedianSortedArrays [1, 1] [1, 1] = PyRet.value (PyFloat.num 1) := by
  refine ⟨?_, ?_, ?_, ?_, ?_, ?_⟩ <;>
    rw [findMedian_spec _ _ (by decide) (by decide) (by simp)] <;>
    norm_num [medianOf, mergedOf, List.insertionSort, List.orderedInsert, List.getD]

/-- C10: for sorted inputs, not both empty, with odd combined length, the
returned median is an element of one of the two input sequences. -/
theorem odd_median_mem (nums1 nums2 : List ℚ)
    (h1 : nums1.Sorted (· ≤ ·)) (h2 : nums2.Sorted (· ≤ ·))
    (hne : ¬ (nums1 = [] ∧ nums2 = []))
    (hodd : (nums1.length + nums2.length) % 2 = 1) :
    ∃ q : ℚ, findMedianSortedArrays nums1 nums2 = PyRet.value (PyFloat.num q) ∧
      (q ∈ nums1 ∨ q ∈ nums2) := by
  have hspec := findMedian_spec nums1 nums2 h1 h2 hne
  have hLlen : (mergedOf nums1 nums2).length = nums1.length + nums2.length := by
    unfold mergedOf
    rw [List.length_insertionSort, List.length_append]
  have hmed : medianOf (mergedOf nums1 nums2) = PyFloat.num
      ((mergedOf nums1 nums2).getD ((nums1.length + nums2.length) / 2) 0) := by
    unfold medianOf
    rw [hLlen, if_pos hodd]
  refine ⟨(mergedOf nums1 nums2).getD ((nums1.length + nums2.length) / 2) 0, ?_, ?_⟩
  · rw [hspec, hmed]
  · have hidx : (nums1.length + nums2.length) / 2 < (mergedOf nums1 nums2).length := by
      rw [hLlen]
      omega
    have hmem : (mergedOf nums1 nums2).getD ((nums1.length + nums2.length) / 2) 0 ∈
        mergedOf nums1 nums2 := by
      rw [List.getD_eq_getElem _ 0 hidx]
      exact List.getElem_mem hidx
    have hmm : mergedOf nums1 nums2 = (nums1 ++ nums2).insertionSort (· ≤ ·) := rfl
    rw [hmm] at hmem
    exact List.mem_append.mp ((List.perm_insertionSort (· ≤ ·) _).mem_iff.mp hmem)

/-- Witness for C10 at the concrete input `[1, 3]`, `[2]`. -/
theorem odd_median_mem_witness :
    List.Sorted (· ≤ ·) [(1 : ℚ), 3] ∧ List.Sorted (· ≤ ·) [(2 : ℚ)] ∧
      ¬ ([(1 : ℚ), 3] = [] ∧ [(2 : ℚ)] = []) ∧
      ([(1 : ℚ), 3].length + [(2 : ℚ)].length) % 2 = 1 ∧
      ∃ q : ℚ, findMedianSortedArrays [1, 3] [2] = PyRet.value (PyFloat.num q) ∧
        (q ∈ [(1 : ℚ), 3] ∨ q ∈ [(2 : ℚ)]) :=
  ⟨by decide, by decide, by simp, by decide,
    odd_median_mem [1, 3] [2] (by decide) (by decide) (by simp) (by decide)⟩
